import Mathlib

/-!
Verification of the text-analysis engine of the TradingView-indicator MCP
server (`src/simple-mcp.ts`).  Strings are shallowly embedded as lists of
characters; each definition mirrors one function or loop of the source.
-/

/-- Strings of the analyzed program are modelled as lists of characters. -/
abbrev Str := List Char

/-- Character class of the JavaScript regex class `\s` (also the set removed
by `String.prototype.trim`). -/
def isJsWs (c : Char) : Bool :=
  c.toNat = 32 || c.toNat = 9 || c.toNat = 10 || c.toNat = 11 || c.toNat = 12 ||
  c.toNat = 13 || c.toNat = 160 || c.toNat = 0x1680 ||
  (0x2000 ≤ c.toNat && c.toNat ≤ 0x200a) ||
  c.toNat = 0x2028 || c.toNat = 0x2029 || c.toNat = 0x202f ||
  c.toNat = 0x205f || c.toNat = 0x3000 || c.toNat = 0xfeff

/-- Character class `[a-zA-Z_]` (first character of an identifier). -/
def isIdentStart (c : Char) : Bool :=
  (97 ≤ c.toNat && c.toNat ≤ 122) || (65 ≤ c.toNat && c.toNat ≤ 90) || c.toNat = 95

/-- Character class `[a-zA-Z0-9_]` (later characters of an identifier). -/
def isIdentChar (c : Char) : Bool :=
  isIdentStart c || (48 ≤ c.toNat && c.toNat ≤ 57)

/-- JavaScript `String.prototype.trim`: drop leading and trailing whitespace. -/
def trimStr (s : Str) : Str :=
  ((s.dropWhile isJsWs).reverse.dropWhile isJsWs).reverse

/-- JavaScript `content.split('\n')`: split on the newline character keeping
empty segments, so the empty string yields one empty segment and a trailing
newline yields a trailing empty segment. -/
def splitLines : Str → List Str
  | [] => [[]]
  | c :: cs =>
    if c = '\n' then [] :: splitLines cs
    else
      match splitLines cs with
      | [] => [[c]]
      | l :: ls => (c :: l) :: ls

/-- Whether a string starts with the given character. -/
def headIs (c : Char) : Str → Bool
  | x :: _ => x == c
  | [] => false

/-- Test of the regex `/^[a-zA-Z_][a-zA-Z0-9_]*\s*\(/` used for the Function
category (`simple-mcp.ts` line 258) and for function starts in
`extract_functions` (line 448).  The greedy left-to-right parse is equivalent
to the regex because identifier characters, whitespace and `(` are pairwise
disjoint. -/
def matchesFunctionPattern (s : Str) : Bool :=
  match s with
  | [] => false
  | c :: rest =>
    isIdentStart c && headIs '(' ((rest.dropWhile isIdentChar).dropWhile isJsWs)

/-- Test of `/^[a-zA-Z_][a-zA-Z0-9_]*\s*=/` (identifier, optional whitespace,
equals sign): the common tail of the Variable regex. -/
def matchesIdentEq (s : Str) : Bool :=
  match s with
  | [] => false
  | c :: rest =>
    isIdentStart c && headIs '=' ((rest.dropWhile isIdentChar).dropWhile isJsWs)

/-- Test of the regex `/^(var\s+)?[a-zA-Z_][a-zA-Z0-9_]*\s*=/` used for the
Variable category (`simple-mcp.ts` line 263).  The optional group reduces to
a disjunction because whitespace and identifier characters are disjoint. -/
def matchesVariablePattern (s : Str) : Bool :=
  (match s with
   | 'v' :: 'a' :: 'r' :: rest =>
     (match rest with
      | c :: _ => isJsWs c && matchesIdentEq (rest.dropWhile isJsWs)
      | [] => false)
   | _ => false) ||
  matchesIdentEq s

/-- Boolean test that one character list is a prefix of another. -/
def isPrefixB : Str → Str → Bool
  | [], _ => true
  | _ :: _, [] => false
  | a :: as, b :: bs => a == b && isPrefixB as bs

/-- JavaScript `haystack.includes(needle)`: the needle occurs as a contiguous
substring of the haystack. -/
def containsSub (needle : Str) : Str → Bool
  | [] => isPrefixB needle []
  | c :: t => isPrefixB needle (c :: t) || containsSub needle t

/-- Plot category: the trimmed line contains `plot(`, `plotshape(` or
`plotchar(` (`simple-mcp.ts` line 269). -/
def plotPattern (t : Str) : Bool :=
  containsSub (("plot(").data) t || containsSub (("plotshape(").data) t ||
    containsSub (("plotchar(").data) t

/-- Input category: the trimmed line contains `input(` or `input.`
(`simple-mcp.ts` line 274). -/
def inputPattern (t : Str) : Bool :=
  containsSub (("input(").data) t || containsSub (("input.").data) t

/-- Alert category: the trimmed line contains `alert(` or `alertcondition(`
(`simple-mcp.ts` line 279). -/
def alertPattern (t : Str) : Bool :=
  containsSub (("alert(").data) t || containsSub (("alertcondition(").data) t

/-- Display text for a Function line: `trimmed.split('(')[0]`. -/
def functionDisplay (t : Str) : Str :=
  t.takeWhile (fun ch => ch != '(')

/-- JavaScript `trimmed.replace(/^var\s+/, '')`: strip a leading `var`
keyword together with the whitespace run that follows it. -/
def stripVarKeyword (s : Str) : Str :=
  match s with
  | 'v' :: 'a' :: 'r' :: rest =>
    match rest with
    | c :: _ => if isJsWs c then rest.dropWhile isJsWs else s
    | [] => s
  | _ => s

/-- Display text for a Variable line:
`trimmed.replace(/^var\s+/, '').split('=')[0].trim()`. -/
def variableDisplay (t : Str) : Str :=
  trimStr ((stripVarKeyword t).takeWhile (fun ch => ch != '='))

/-- The five per-category arrays built by the classification loop of
`analyzeIndicatorCode` before truncation. -/
structure RawLists where
  functions : List Str
  vars : List Str
  plots : List Str
  inputs : List Str
  alerts : List Str
deriving DecidableEq

/-- One iteration of the classification loop (`simple-mcp.ts` lines 254-282):
each of the five independent pattern checks pushes its display text onto its
own array. -/
def classifyLine (acc : RawLists) (line : Str) : RawLists :=
  let trimmed := trimStr line
  { functions := acc.functions ++
      (if matchesFunctionPattern trimmed then [functionDisplay trimmed] else [])
    vars := acc.vars ++
      (if matchesVariablePattern trimmed then [variableDisplay trimmed] else [])
    plots := acc.plots ++ (if plotPattern trimmed then [trimmed] else [])
    inputs := acc.inputs ++ (if inputPattern trimmed then [trimmed] else [])
    alerts := acc.alerts ++ (if alertPattern trimmed then [trimmed] else []) }

/-- The three-tier complexity classification. -/
inductive Complexity where
  | Low
  | Medium
  | High
deriving DecidableEq

/-- The record returned by `analyzeIndicatorCode`. -/
structure AnalysisReport where
  functions : List Str
  vars : List Str
  plots : List Str
  inputs : List Str
  alerts : List Str
  complexity : Complexity
  lineCount : Nat
deriving DecidableEq

/-- `analyzeIndicatorCode` (`simple-mcp.ts` lines 237-302): split into lines,
classify every line, derive the complexity from the pre-truncation array
lengths, and return the arrays truncated to their caps. -/
def analyzeIndicatorCode (content : Str) : AnalysisReport :=
  let lines := splitLines content
  let raw := lines.foldl classifyLine ⟨[], [], [], [], []⟩
  let c1 := Complexity.Low
  let c2 :=
    if lines.length > 100 ∨ raw.functions.length > 10 then Complexity.Medium else c1
  let complexity :=
    if lines.length > 300 ∨ raw.functions.length > 20 ∨ raw.plots.length > 5 then
      Complexity.High
    else c2
  { functions := raw.functions.take 10
    vars := raw.vars.take 15
    plots := raw.plots.take 10
    inputs := raw.inputs.take 10
    alerts := raw.alerts.take 5
    complexity := complexity
    lineCount := lines.length }

/-- A function span returned by `extract_functions`: name, 1-based inclusive
line range, and the literal source text of the span. -/
structure FunctionSpan where
  name : Str
  startLine : Nat
  endLine : Nat
  code : Str
deriving DecidableEq

/-- One iteration of the brace-balance scan of `extract_functions`
(`simple-mcp.ts` lines 457-467): a line containing `\x7b` sets the
in-function flag and increments the count once; a line containing `\x7d`
decrements the count once and, when the count is back to zero in the
in-function state, signals the break.  Returns the new count, the new flag
and the break signal. -/
def braceLineUpdate (line : Str) (braceCount : Int) (inFunction : Bool) :
    (Int × Bool) × Bool :=
  let s := if containsSub ['\x7b'] line then (braceCount + 1, true)
           else (braceCount, inFunction)
  if containsSub ['\x7d'] line then ((s.1 - 1, s.2), s.1 - 1 == 0 && s.2)
  else (s, false)

/-- The bounded forward scan of `extract_functions` (`simple-mcp.ts` lines
455-468): from line index `j` up to (excluding) `stop`, apply
`braceLineUpdate` to each line; on the break signal return the current index,
on exhaustion return the default `dflt` (the start index).  The fuel argument
makes the recursion structural; callers pass `stop - j`, which bounds the
number of iterations. -/
def scanLoop (lines : List Str) (stop : Nat) :
    Nat → Nat → Int → Bool → Nat → Nat
  | 0, _, _, _, dflt => dflt
  | fuel + 1, j, braceCount, inFunction, dflt =>
    if j < stop then
      if (braceLineUpdate (lines.getD j []) braceCount inFunction).2 then j
      else
        scanLoop lines stop fuel (j + 1)
          (braceLineUpdate (lines.getD j []) braceCount inFunction).1.1
          (braceLineUpdate (lines.getD j []) braceCount inFunction).1.2 dflt
    else dflt

/-- End index of the function body starting at line index `i`: scan the
window `[i, min (i+50) lines.length)` with count 0 and flag false, defaulting
to `i` itself. -/
def findFunctionEnd (lines : List Str) (i : Nat) : Nat :=
  let stop := min (i + 50) lines.length
  scanLoop lines stop (stop - i) i 0 false i

/-- JavaScript `lines.slice(a, b).join('\n')` for `a ≤ b`. -/
def joinLines : List Str → Str
  | [] => []
  | [l] => l
  | l :: ls => l ++ '\n' :: joinLines ls

/-- Body of one iteration of the outer loop of `extract_functions`
(`simple-mcp.ts` lines 445-479): if the trimmed line at index `i` matches the
function pattern, produce the span from `i` to the scanned end (the span is
pushed only when its source text is nonempty, as in the source). -/
def spanAt (lines : List Str) (i : Nat) : List FunctionSpan :=
  let line := trimStr (lines.getD i [])
  if matchesFunctionPattern line then
    let functionEnd := findFunctionEnd lines i
    let functionCode := joinLines ((lines.drop i).take (functionEnd + 1 - i))
    if functionCode.length > 0 then
      [⟨line.takeWhile (fun ch => ch != '('), i + 1, functionEnd + 1, functionCode⟩]
    else []
  else []

/-- `extract_functions` (`simple-mcp.ts` lines 439-480): scan every line
index in order and collect the spans. -/
def extractFunctions (content : Str) : List FunctionSpan :=
  let lines := splitLines content
  (List.range lines.length).foldl (fun acc i => acc ++ spanAt lines i) []

/-- ASCII lowercasing of one character, the effective behaviour of
`String.prototype.toLowerCase` on the ASCII range. -/
def lowerChar (c : Char) : Char :=
  if 65 ≤ c.toNat ∧ c.toNat ≤ 90 then Char.ofNat (c.toNat + 32) else c

/-- Lowercasing of a whole string. -/
def lowerStr (s : Str) : Str := s.map lowerChar

/-- A matched line of Corpus Search: recorded (trimmed) text and 1-based
line number. -/
structure SearchMatchLine where
  line : Str
  number : Nat
deriving DecidableEq

/-- Per-file result of Corpus Search (the field `matchList` embeds the
`matches` array of the source, whose name is a Lean keyword). -/
structure SearchMatch where
  file : Str
  matchList : List SearchMatchLine
deriving DecidableEq

/-- The numbering stage `lines.map((line, index) => ({line: line.trim(),
number: index + 1}))` of `search_indicators` (`simple-mcp.ts` line 405). -/
def numberLines : Nat → List Str → List SearchMatchLine
  | _, [] => []
  | k, l :: ls => SearchMatchLine.mk (trimStr l) (k + 1) :: numberLines (k + 1) ls

/-- The line-filter stage of `search_indicators` (`simple-mcp.ts` lines
403-409): keep the numbered trimmed lines whose (possibly lowercased) text
contains the already-normalized term. -/
def fileLineMatches (content : Str) (term : Str) (ci : Bool) :
    List SearchMatchLine :=
  (numberLines 0 (splitLines content)).filter
    (fun m => containsSub term (if ci then lowerStr m.line else m.line))

/-- One iteration of the per-file loop of `search_indicators` (`simple-mcp.ts`
lines 395-421): a file whose read failed is skipped; otherwise the file is
recorded (with its first three line matches) exactly when the normalized
whole content contains the normalized term. -/
def searchStep (searchTerm : Str) (ci : Bool) (results : List SearchMatch)
    (fc : Str × Option Str) : List SearchMatch :=
  match fc.2 with
  | none => results
  | some content =>
    let searchContent := if ci then lowerStr content else content
    let term := if ci then lowerStr searchTerm else searchTerm
    if containsSub term searchContent then
      results ++ [⟨fc.1, (fileLineMatches content term ci).take 3⟩]
    else results

/-- The `search_indicators` tool body over an abstract list of files, each
given with its name and its readable content (`none` models a read failure). -/
def searchIndicators (files : List (Str × Option Str)) (searchTerm : Str)
    (ci : Bool) : List SearchMatch :=
  files.foldl (searchStep searchTerm ci) []

/-- Decimal rendering of a natural number, for the text templates. -/
def natToStr (n : Nat) : Str := (Nat.repr n).data

/-- Rendering of a complexity tier. -/
def complexityStr : Complexity → Str
  | Complexity.Low => ("Low").data
  | Complexity.Medium => ("Medium").data
  | Complexity.High => ("High").data

/-- `list.join(sep)` of JavaScript. -/
def joinWith (sep : Str) : List Str → Str
  | [] => []
  | [l] => l
  | l :: ls => l ++ sep ++ joinWith sep ls

/-- The name filter of `getIndicatorFiles` (`simple-mcp.ts` lines 210-223):
hidden files, project/tooling files and excluded extensions are dropped. -/
def isExcludedFile (file : Str) : Bool :=
  (match file with | '.' :: _ => true | _ => false) ||
  containsSub (("package").data) file ||
  containsSub (("tsconfig").data) file ||
  containsSub (("Dockerfile").data) file ||
  isPrefixB ((".js").data).reverse file.reverse ||
  isPrefixB ((".ts").data).reverse file.reverse ||
  isPrefixB ((".json").data).reverse file.reverse ||
  isPrefixB ((".md").data).reverse file.reverse ||
  isPrefixB ((".rar").data).reverse file.reverse

/-- `getIndicatorFiles` over an abstract directory listing (`Except` models
the `readdirSync` failure, rethrown with a wrapping message). -/
def getIndicatorFilesE (dir : Except Str (List Str)) (pattern : Option Str) :
    Except Str (List Str) :=
  match dir with
  | Except.error e => Except.error (("Failed to read directory: ").data ++ e)
  | Except.ok files =>
    Except.ok (files.filter (fun file =>
      !isExcludedFile file &&
        (match pattern with
         | some p => containsSub (lowerStr p) (lowerStr file)
         | none => true)))

/-- `readIndicatorFile` (`simple-mcp.ts` lines 229-235): wrap a read failure
in a message carrying the filename and the underlying reason. -/
def readIndicatorFileE (fs : Str → Except Str Str) (filename : Str) :
    Except Str Str :=
  match fs filename with
  | Except.ok c => Except.ok c
  | Except.error e =>
    Except.error ((("Failed to read indicator file \"").data ++ filename ++
      ("\": ").data) ++ e)

/-- Render template of the `analyze_indicator` result (`simple-mcp.ts` lines
357-378). -/
def renderAnalysis (name : Str) (a : AnalysisReport) : Str :=
  ("# Analysis of ").data ++ name ++
  ("\n\n## Overview\n- **Lines of Code**: ").data ++ natToStr a.lineCount ++
  ("\n- **Complexity**: ").data ++ complexityStr a.complexity ++
  ("\n\n## Components Found\n- **Functions**: ").data ++
    natToStr a.functions.length ++
  (" found\n- **Variables**: ").data ++ natToStr a.vars.length ++
  (" found\n- **Plots**: ").data ++ natToStr a.plots.length ++
  (" found\n- **Inputs**: ").data ++ natToStr a.inputs.length ++
  (" found\n- **Alerts**: ").data ++ natToStr a.alerts.length ++
  (" found\n\n## Key Functions\n").data ++
  (if a.functions.length > 0 then
    joinWith ['\n'] (a.functions.map (fun f => ("- ").data ++ f))
   else ("None found").data) ++
  ("\n\n## Plot Commands\n").data ++
  (if a.plots.length > 0 then
    joinWith ['\n'] (a.plots.map (fun p => ("- ").data ++ p.take 100 ++ ("...").data))
   else ("None found").data) ++
  ("\n\n## Input Parameters\n").data ++
  (if a.inputs.length > 0 then
    joinWith ['\n'] (a.inputs.map (fun i => ("- ").data ++ i.take 80 ++ ("...").data))
   else ("None found").data) ++
  ("\n").data

/-- Numbered listing `${i + 1}. ${file}` used by `list_indicators`. -/
def numberedList : Nat → List Str → List Str
  | _, [] => []
  | k, f :: fs => (natToStr (k + 1) ++ (". ").data ++ f) :: numberedList (k + 1) fs

/-- Render template of the `list_indicators` result (`simple-mcp.ts` line
346). -/
def renderList (files : List Str) : Str :=
  ("Found ").data ++ natToStr files.length ++ (" indicator files:\n\n").data ++
    joinWith ['\n'] (numberedList 0 files)

/-- Render template of the `search_indicators` result (`simple-mcp.ts` lines
423-427). -/
def renderSearch (searchTerm : Str) (results : List SearchMatch) : Str :=
  if results.length > 0 then
    ("Found \"").data ++ searchTerm ++ ("\" in ").data ++
      natToStr results.length ++ (" files:\n\n").data ++
      joinWith (("\n\n").data) (results.map (fun r =>
        ("**").data ++ r.file ++ ("**:\n").data ++
          joinWith ['\n'] (r.matchList.map (fun m =>
            ("  Line ").data ++ natToStr m.number ++ (": ").data ++ m.line))))
  else ("No matches found for \"").data ++ searchTerm ++ ("\"").data

/-- Render template of the `extract_functions` result (`simple-mcp.ts` lines
482-493). -/
def renderExtract (name : Str) (fs : List FunctionSpan) : Str :=
  ("# Functions extracted from ").data ++ name ++ ("\n\nFound ").data ++
    natToStr fs.length ++ (" functions:\n\n").data ++
    joinWith ['\n'] (fs.map (fun f =>
      ("## ").data ++ f.name ++ ("\n**Lines**: ").data ++
        natToStr f.startLine ++ ("-").data ++ natToStr f.endLine ++
        ("\n\n```pinescript\n").data ++ f.code ++ ("\n```\n\n---").data))

/-- A typed tool-invocation request (arguments already validated against the
tool schemas). -/
inductive ToolRequest where
  | listIndicators (pattern : Option Str)
  | analyzeIndicator (indicatorName : Str)
  | searchTool (searchTerm : Str) (caseInsensitive : Bool)
  | extractTool (indicatorName : Str)
  | unknown (name : Str)

/-- A tool response payload: text plus the error flag. -/
structure ToolResponse where
  text : Str
  isError : Bool
deriving DecidableEq

/-- Turn a read result into the optional content used by the per-file
try/catch of `search_indicators` (a failing file is skipped). -/
def readToOption (fs : Str → Except Str Str) (f : Str) : Option Str :=
  match fs f with
  | Except.ok c => some c
  | Except.error _ => none

/-- The `switch` body of the `CallToolRequestSchema` handler (`simple-mcp.ts`
lines 337-506): each branch either returns its rendered text or throws
(modelled by `Except.error`).  The directory listing and the file store are
abstract inputs. -/
def dispatchTool (dir : Except Str (List Str)) (fs : Str → Except Str Str) :
    ToolRequest → Except Str Str
  | ToolRequest.listIndicators pattern =>
    (getIndicatorFilesE dir pattern).map renderList
  | ToolRequest.analyzeIndicator n =>
    (readIndicatorFileE fs n).map (fun content =>
      renderAnalysis n (analyzeIndicatorCode content))
  | ToolRequest.searchTool term ci =>
    (getIndicatorFilesE dir none).map (fun files =>
      renderSearch term
        (searchIndicators (files.map (fun f => (f, readToOption fs f))) term ci))
  | ToolRequest.extractTool n =>
    (readIndicatorFileE fs n).map (fun content =>
      renderExtract n (extractFunctions content))
  | ToolRequest.unknown n =>
    Except.error (("Unknown tool: ").data ++ n)

/-- The dispatch boundary (`simple-mcp.ts` lines 336 and 508-518): the whole
`switch` is wrapped in try/catch, and every thrown error becomes a normal
response flagged as an error, with text `Error: ` followed by the message. -/
def handleCallTool (dir : Except Str (List Str)) (fs : Str → Except Str Str)
    (req : ToolRequest) : ToolResponse :=
  match dispatchTool dir fs req with
  | Except.ok text => ⟨text, false⟩
  | Except.error msg => ⟨("Error: ").data ++ msg, true⟩

/-- All Function display texts in file order (no truncation): the lines whose
trimmed form matches the Function pattern, mapped to their display text. -/
def allFunctions (content : Str) : List Str :=
  ((splitLines content).filter (fun l => matchesFunctionPattern (trimStr l))).map
    (fun l => functionDisplay (trimStr l))

/-- All Variable display texts in file order (no truncation). -/
def allVariables (content : Str) : List Str :=
  ((splitLines content).filter (fun l => matchesVariablePattern (trimStr l))).map
    (fun l => variableDisplay (trimStr l))

/-- All Plot lines (trimmed) in file order (no truncation). -/
def allPlots (content : Str) : List Str :=
  ((splitLines content).filter (fun l => plotPattern (trimStr l))).map
    (fun l => trimStr l)

/-- All Input lines (trimmed) in file order (no truncation). -/
def allInputs (content : Str) : List Str :=
  ((splitLines content).filter (fun l => inputPattern (trimStr l))).map
    (fun l => trimStr l)

/-- All Alert lines (trimmed) in file order (no truncation). -/
def allAlerts (content : Str) : List Str :=
  ((splitLines content).filter (fun l => alertPattern (trimStr l))).map
    (fun l => trimStr l)

/-- The complexity tier in the words of the spec: start at Low, promote to
Medium when `lineCount > 100` or `functionCount > 10`, and promote to High
(overriding Medium) when `lineCount > 300` or `functionCount > 20` or
`plotCount > 5`; all counts are pre-truncation. -/
def complexitySpec (lineCount functionCount plotCount : Nat) : Complexity :=
  let promoted :=
    if lineCount > 100 ∨ functionCount > 10 then Complexity.Medium
    else Complexity.Low
  if lineCount > 300 ∨ functionCount > 20 ∨ plotCount > 5 then Complexity.High
  else promoted

/-- The Function rule in the words of claim C2: an identifier immediately
followed by `(`, with no characters in between. -/
def functionClaimPattern (s : Str) : Bool :=
  match s with
  | [] => false
  | c :: rest => isIdentStart c && headIs '(' (rest.dropWhile isIdentChar)

/-- The Function rule as a declarative decomposition: an identifier-start
character, identifier characters, optional whitespace, then `(`. -/
def functionSpecPattern (s : Str) : Prop :=
  ∃ c id ws rest, s = c :: (id ++ ws ++ '(' :: rest) ∧ isIdentStart c = true ∧
    (∀ x ∈ id, isIdentChar x = true) ∧ (∀ x ∈ ws, isJsWs x = true)

/-- Splitting never produces an empty list of lines. -/
lemma splitLines_ne_nil (c : Str) : splitLines c ≠ [] := by
  induction c with
  | nil => simp [splitLines]
  | cons a cs ih =>
    simp only [splitLines]
    by_cases h : a = '\n'
    · simp [h]
    · simp only [if_neg h]
      cases hs : splitLines cs <;> simp

/-- The number of line segments is the newline count plus one. -/
lemma splitLines_length (c : Str) : (splitLines c).length = c.count '\n' + 1 := by
  induction c with
  | nil => simp [splitLines]
  | cons a cs ih =>
    simp only [splitLines]
    by_cases h : a = '\n'
    · subst h
      simp [List.count_cons, ih]
    · simp only [if_neg h]
      cases hs : splitLines cs with
      | nil => exact absurd hs (splitLines_ne_nil cs)
      | cons l ls =>
        rw [hs] at ih
        simp only [List.length_cons] at ih ⊢
        simp [List.count_cons, h, Ne.symm h]
        omega

/-- Appending a final newline appends one trailing empty segment. -/
lemma splitLines_append_newline (c : Str) :
    splitLines (c ++ ['\n']) = splitLines c ++ [[]] := by
  induction c with
  | nil => simp [splitLines]
  | cons a cs ih =>
    by_cases h : a = '\n'
    · subst h
      simp [splitLines, ih]
    · simp only [List.cons_append, splitLines, if_neg h, List.append_eq]
      cases hs : splitLines cs with
      | nil => exact absurd hs (splitLines_ne_nil cs)
      | cons l ls =>
        rw [ih, hs]
        simp

/-- Every character of every line segment occurs in the original content. -/
lemma splitLines_chars (c : Str) : ∀ l ∈ splitLines c, ∀ x ∈ l, x ∈ c := by
  induction c with
  | nil =>
    intro l hl x hx
    simp [splitLines] at hl
    subst hl
    simp at hx
  | cons a cs ih =>
    intro l hl x hx
    by_cases h : a = '\n'
    · subst h
      simp only [splitLines, if_pos rfl] at hl
      rcases List.mem_cons.mp hl with h1 | h1
      · subst h1
        simp at hx
      · exact List.mem_cons_of_mem _ (ih l h1 x hx)
    · simp only [splitLines, if_neg h] at hl
      cases hs : splitLines cs with
      | nil => exact absurd hs (splitLines_ne_nil cs)
      | cons l0 ls =>
        rw [hs] at hl
        rcases List.mem_cons.mp hl with h1 | h1
        · subst h1
          rcases List.mem_cons.mp hx with h2 | h2
          · subst h2
            exact List.mem_cons_self _ _
          · refine List.mem_cons_of_mem _ (ih l0 ?_ x h2)
            rw [hs]
            exact List.mem_cons_self _ _
        · refine List.mem_cons_of_mem _ (ih l ?_ x hx)
          rw [hs]
          exact List.mem_cons_of_mem _ h1

/-- Containment of a one-character needle is list membership. -/
lemma containsSub_singleton (x : Char) :
    ∀ l : Str, containsSub [x] l = true ↔ x ∈ l := by
  intro l
  induction l with
  | nil => simp [containsSub, isPrefixB]
  | cons c t ih => simp [containsSub, isPrefixB, ih, beq_iff_eq]

/-- Identifier characters are not whitespace. -/
lemma identChar_not_ws (c : Char) (h : isIdentChar c = true) : isJsWs c = false := by
  simp only [isIdentChar, isIdentStart, Bool.or_eq_true, Bool.and_eq_true,
    decide_eq_true_eq] at h
  simp only [isJsWs, Bool.or_eq_false_iff, Bool.and_eq_false_iff,
    decide_eq_false_iff_not]
  omega

/-- Whitespace characters are not identifier characters. -/
lemma ws_not_identChar (c : Char) (h : isJsWs c = true) : isIdentChar c = false := by
  simp only [isJsWs, Bool.or_eq_true, Bool.and_eq_true, decide_eq_true_eq] at h
  simp only [isIdentChar, isIdentStart, Bool.or_eq_false_iff, Bool.and_eq_false_iff,
    decide_eq_false_iff_not]
  omega

/-- Dropping over a block that satisfies the predicate everywhere skips it. -/
lemma dropWhile_append_all {p : Char → Bool} :
    ∀ (a b : Str), (∀ x ∈ a, p x = true) →
      (a ++ b).dropWhile p = b.dropWhile p := by
  intro a
  induction a with
  | nil =>
    intro b _
    rfl
  | cons x xs ih =>
    intro b h
    rw [List.cons_append, List.dropWhile_cons, if_pos (h x (List.mem_cons_self _ _))]
    exact ih b (fun y hy => h y (List.mem_cons_of_mem _ hy))

/-- Dropping stops at once on a head that falsifies the predicate. -/
lemma dropWhile_cons_false {p : Char → Bool} (x : Char) (l : Str)
    (h : p x = false) : (x :: l).dropWhile p = x :: l := by
  rw [List.dropWhile_cons, if_neg (by simp [h])]

/-- Projection of one classification step: the Function array. -/
lemma classifyLine_functions (acc : RawLists) (l : Str) :
    (classifyLine acc l).functions = acc.functions ++
      (if matchesFunctionPattern (trimStr l) then [functionDisplay (trimStr l)]
       else []) := rfl

/-- Projection of one classification step: the Variable array. -/
lemma classifyLine_vars (acc : RawLists) (l : Str) :
    (classifyLine acc l).vars = acc.vars ++
      (if matchesVariablePattern (trimStr l) then [variableDisplay (trimStr l)]
       else []) := rfl

/-- Projection of one classification step: the Plot array. -/
lemma classifyLine_plots (acc : RawLists) (l : Str) :
    (classifyLine acc l).plots = acc.plots ++
      (if plotPattern (trimStr l) then [trimStr l] else []) := rfl

/-- Projection of one classification step: the Input array. -/
lemma classifyLine_inputs (acc : RawLists) (l : Str) :
    (classifyLine acc l).inputs = acc.inputs ++
      (if inputPattern (trimStr l) then [trimStr l] else []) := rfl

/-- Projection of one classification step: the Alert array. -/
lemma classifyLine_alerts (acc : RawLists) (l : Str) :
    (classifyLine acc l).alerts = acc.alerts ++
      (if alertPattern (trimStr l) then [trimStr l] else []) := rfl

/-- The classification loop collects exactly the Function display texts of
the matching lines, in file order. -/
lemma foldl_classify_functions (ls : List Str) :
    ∀ acc : RawLists, (ls.foldl classifyLine acc).functions =
      acc.functions ++
        ((ls.filter (fun l => matchesFunctionPattern (trimStr l))).map
          (fun l => functionDisplay (trimStr l))) := by
  induction ls with
  | nil =>
    intro acc
    simp
  | cons l ls ih =>
    intro acc
    rw [List.foldl_cons, ih, classifyLine_functions]
    by_cases h : matchesFunctionPattern (trimStr l)
    · simp [List.filter_cons, h]
    · simp [List.filter_cons, h]

/-- The classification loop collects exactly the Variable display texts of
the matching lines, in file order. -/
lemma foldl_classify_vars (ls : List Str) :
    ∀ acc : RawLists, (ls.foldl classifyLine acc).vars =
      acc.vars ++
        ((ls.filter (fun l => matchesVariablePattern (trimStr l))).map
          (fun l => variableDisplay (trimStr l))) := by
  induction ls with
  | nil =>
    intro acc
    simp
  | cons l ls ih =>
    intro acc
    rw [List.foldl_cons, ih, classifyLine_vars]
    by_cases h : matchesVariablePattern (trimStr l)
    · simp [List.filter_cons, h]
    · simp [List.filter_cons, h]

/-- The classification loop collects exactly the trimmed Plot lines, in file
order. -/
lemma foldl_classify_plots (ls : List Str) :
    ∀ acc : RawLists, (ls.foldl classifyLine acc).plots =
      acc.plots ++
        ((ls.filter (fun l => plotPattern (trimStr l))).map (fun l => trimStr l)) := by
  induction ls with
  | nil =>
    intro acc
    simp
  | cons l ls ih =>
    intro acc
    rw [List.foldl_cons, ih, classifyLine_plots]
    by_cases h : plotPattern (trimStr l)
    · simp [List.filter_cons, h]
    · simp [List.filter_cons, h]

/-- The classification loop collects exactly the trimmed Input lines, in file
order. -/
lemma foldl_classify_inputs (ls : List Str) :
    ∀ acc : RawLists, (ls.foldl classifyLine acc).inputs =
      acc.inputs ++
        ((ls.filter (fun l => inputPattern (trimStr l))).map (fun l => trimStr l)) := by
  induction ls with
  | nil =>
    intro acc
    simp
  | cons l ls ih =>
    intro acc
    rw [List.foldl_cons, ih, classifyLine_inputs]
    by_cases h : inputPattern (trimStr l)
    · simp [List.filter_cons, h]
    · simp [List.filter_cons, h]

/-- The classification loop collects exactly the trimmed Alert lines, in file
order. -/
lemma foldl_classify_alerts (ls : List Str) :
    ∀ acc : RawLists, (ls.foldl classifyLine acc).alerts =
      acc.alerts ++
        ((ls.filter (fun l => alertPattern (trimStr l))).map (fun l => trimStr l)) := by
  induction ls with
  | nil =>
    intro acc
    simp
  | cons l ls ih =>
    intro acc
    rw [List.foldl_cons, ih, classifyLine_alerts]
    by_cases h : alertPattern (trimStr l)
    · simp [List.filter_cons, h]
    · simp [List.filter_cons, h]

/-- A break signal of the brace scan requires a closing brace on the line. -/
lemma braceLineUpdate_break (line : Str) (bc : Int) (inF : Bool)
    (h : (braceLineUpdate line bc inF).2 = true) :
    containsSub ['\x7d'] line = true := by
  by_cases h2 : containsSub ['\x7d'] line
  · exact h2
  · simp [braceLineUpdate, h2] at h

/-- The brace scan either exhausts its window (returning the default) or
breaks at an index inside the window whose line contains a closing brace. -/
lemma scanLoop_cases (lines : List Str) (stop : Nat) :
    ∀ fuel j bc inF dflt, scanLoop lines stop fuel j bc inF dflt = dflt ∨
      (j ≤ scanLoop lines stop fuel j bc inF dflt ∧
       scanLoop lines stop fuel j bc inF dflt < stop ∧
       containsSub ['\x7d']
         (lines.getD (scanLoop lines stop fuel j bc inF dflt) []) = true) := by
  intro fuel
  induction fuel with
  | zero =>
    intro j bc inF dflt
    left
    rfl
  | succ fuel ih =>
    intro j bc inF dflt
    rw [scanLoop]
    by_cases hj : j < stop
    · rw [if_pos hj]
      by_cases hb : (braceLineUpdate (lines.getD j []) bc inF).2
      · rw [if_pos hb]
        right
        exact ⟨le_refl j, hj, braceLineUpdate_break _ _ _ hb⟩
      · rw [if_neg hb]
        rcases ih (j + 1)
            (braceLineUpdate (lines.getD j []) bc inF).1.1
            (braceLineUpdate (lines.getD j []) bc inF).1.2 dflt with h | ⟨h1, h2, h3⟩
        · left
          exact h
        · right
          exact ⟨le_trans (Nat.le_succ j) h1, h2, h3⟩
    · rw [if_neg hj]
      left
      rfl

/-- On a file without brace characters the scan always exhausts its window. -/
lemma scanLoop_no_braces (lines : List Str) (stop : Nat)
    (hl : ∀ l ∈ lines, containsSub ['\x7b'] l = false ∧
      containsSub ['\x7d'] l = false) :
    ∀ fuel j bc inF dflt, scanLoop lines stop fuel j bc inF dflt = dflt := by
  intro fuel
  induction fuel with
  | zero =>
    intro j bc inF dflt
    rfl
  | succ fuel ih =>
    intro j bc inF dflt
    rw [scanLoop]
    by_cases hj : j < stop
    · have hline : containsSub ['\x7b'] (lines.getD j []) = false ∧
          containsSub ['\x7d'] (lines.getD j []) = false := by
        by_cases hjl : j < lines.length
        · refine hl _ ?_
          rw [List.getD_eq_getElem _ _ hjl]
          exact List.getElem_mem hjl
        · have hd : lines.getD j [] = [] := by
            simp [List.getD_eq_getElem?_getD,
              List.getElem?_eq_none (Nat.le_of_not_lt hjl)]
          rw [hd]
          exact ⟨rfl, rfl⟩
      have hupd : braceLineUpdate (lines.getD j []) bc inF = ((bc, inF), false) := by
        unfold braceLineUpdate
        rw [hline.1, hline.2]
        simp
      rw [if_pos hj, hupd]
      simpa using ih (j + 1) bc inF dflt
    · rw [if_neg hj]

/-- Membership in a fold that appends per-index blocks. -/
lemma foldl_append_mem {β : Type} (g : Nat → List β) :
    ∀ (idxs : List Nat) (acc : List β) (x : β),
      x ∈ idxs.foldl (fun a i => a ++ g i) acc ↔
        x ∈ acc ∨ ∃ i, i ∈ idxs ∧ x ∈ g i := by
  intro idxs
  induction idxs with
  | nil =>
    intro acc x
    simp
  | cons i is ih =>
    intro acc x
    rw [List.foldl_cons, ih]
    constructor
    · rintro (h | ⟨j, hj, hx⟩)
      · rcases List.mem_append.mp h with h1 | h1
        · exact Or.inl h1
        · exact Or.inr ⟨i, List.mem_cons_self _ _, h1⟩
      · exact Or.inr ⟨j, List.mem_cons_of_mem _ hj, hx⟩
    · rintro (h | ⟨j, hj, hx⟩)
      · exact Or.inl (List.mem_append.mpr (Or.inl h))
      · rcases List.mem_cons.mp hj with rfl | hj'
        · exact Or.inl (List.mem_append.mpr (Or.inr hx))
        · exact Or.inr ⟨j, hj', hx⟩

/-- Membership in the numbered-line list, componentwise. -/
lemma mem_numberLines :
    ∀ (ls : List Str) (k : Nat) (m : SearchMatchLine),
      m ∈ numberLines k ls ↔
        ∃ j, j < ls.length ∧ m.line = trimStr (ls.getD j []) ∧
          m.number = k + j + 1 := by
  intro ls
  induction ls with
  | nil =>
    intro k m
    simp [numberLines]
  | cons l ls ih =>
    intro k m
    simp only [numberLines, List.mem_cons, ih]
    constructor
    · rintro (rfl | ⟨j, hj, h1, h2⟩)
      · exact ⟨0, by simp, by simp, by simp⟩
      · refine ⟨j + 1, by simp [hj], ?_, by omega⟩
        simpa [List.getD_cons_succ] using h1
    · rintro ⟨j, hj, h1, h2⟩
      cases j with
      | zero =>
        left
        cases m
        simp only [List.getD_cons_zero] at h1
        simp at h1 h2
        simp [h1, h2]
      | succ j =>
        right
        refine ⟨j, by simpa using hj, ?_, by omega⟩
        simpa [List.getD_cons_succ] using h1

/-- Every entry of the per-file search fold either was in the accumulator or
records a readable file of the list whose normalized content contains the
normalized term, together with the first three line matches. -/
lemma search_mem (searchTerm : Str) (ci : Bool) :
    ∀ (files : List (Str × Option Str)) (acc : List SearchMatch) (m : SearchMatch),
      m ∈ files.foldl (searchStep searchTerm ci) acc →
      m ∈ acc ∨ ∃ content, (m.file, some content) ∈ files ∧
        containsSub (if ci then lowerStr searchTerm else searchTerm)
          (if ci then lowerStr content else content) = true ∧
        m.matchList =
          (fileLineMatches content
            (if ci then lowerStr searchTerm else searchTerm) ci).take 3 := by
  intro files
  induction files with
  | nil =>
    intro acc m h
    left
    exact h
  | cons f fs ih =>
    intro acc m h
    rw [List.foldl_cons] at h
    rcases ih _ m h with h1 | ⟨content, hc, hinf, hm⟩
    · rcases f with ⟨fname, fcont⟩
      cases fcont with
      | none =>
        left
        exact h1
      | some content =>
        simp only [searchStep] at h1
        by_cases hin : containsSub (if ci then lowerStr searchTerm else searchTerm)
            (if ci then lowerStr content else content) = true
        · rw [if_pos hin] at h1
          rcases List.mem_append.mp h1 with h2 | h2
          · left
            exact h2
          · right
            rcases List.mem_singleton.mp h2 with rfl
            exact ⟨content, List.mem_cons_self _ _, hin, rfl⟩
        · rw [if_neg hin] at h1
          left
          exact h1
    · right
      exact ⟨content, List.mem_cons_of_mem _ hc, hinf, hm⟩

/-- Claim C1: the complexity tier returned by `analyzeIndicatorCode` is the
escalation of the spec — start at Low, promote to Medium when
lineCount > 100 or functionCount > 10, and promote to High (overriding
Medium) when lineCount > 300 or functionCount > 20 or plotCount > 5 —
computed on the pre-truncation counts of matching lines. -/
theorem claim_C1 (content : Str) :
    (analyzeIndicatorCode content).complexity =
      complexitySpec (splitLines content).length
        ((splitLines content).filter
          (fun l => matchesFunctionPattern (trimStr l))).length
        ((splitLines content).filter (fun l => plotPattern (trimStr l))).length := by
  have hfn := foldl_classify_functions (splitLines content) ⟨[], [], [], [], []⟩
  have hpl := foldl_classify_plots (splitLines content) ⟨[], [], [], [], []⟩
  simp only [analyzeIndicatorCode, complexitySpec]
  rw [hfn, hpl]
  simp [List.length_map]

/-- Claim C2 (amended): the Line Classifier assigns category Function exactly
when the trimmed line starts with an identifier followed by optional
whitespace and then `(`. -/
theorem claim_C2_amended (line : Str) :
    matchesFunctionPattern (trimStr line) = true ↔
      functionSpecPattern (trimStr line) := by
  generalize trimStr line = s
  constructor
  · intro h
    cases s with
    | nil => simp [matchesFunctionPattern] at h
    | cons c rest =>
      simp only [matchesFunctionPattern, Bool.and_eq_true] at h
      obtain ⟨hstart, hmatch⟩ := h
      cases hm : (rest.dropWhile isIdentChar).dropWhile isJsWs with
      | nil =>
        rw [hm] at hmatch
        simp [headIs] at hmatch
      | cons d tail =>
        rw [hm] at hmatch
        simp only [headIs, beq_iff_eq] at hmatch
        subst hmatch
        refine ⟨c, rest.takeWhile isIdentChar,
          (rest.dropWhile isIdentChar).takeWhile isJsWs, tail, ?_, hstart,
          fun x hx => List.mem_takeWhile_imp hx,
          fun x hx => List.mem_takeWhile_imp hx⟩
        have h1 : rest.takeWhile isIdentChar ++ rest.dropWhile isIdentChar = rest :=
          List.takeWhile_append_dropWhile ..
      
        have h2 : (rest.dropWhile isIdentChar).takeWhile isJsWs ++
            (rest.dropWhile isIdentChar).dropWhile isJsWs =
              rest.dropWhile isIdentChar :=
          List.takeWhile_append_dropWhile ..
      
        rw [hm] at h2
        rw [List.append_assoc, h2, h1]
  · rintro ⟨c, id, ws, rest, rfl, hstart, hid, hws⟩
    simp only [matchesFunctionPattern, hstart, Bool.true_and]
    rw [List.append_assoc]
    have h1 : (id ++ (ws ++ '(' :: rest)).dropWhile isIdentChar =
        (ws ++ '(' :: rest).dropWhile isIdentChar :=
      dropWhile_append_all _ _ hid
    have h2 : (ws ++ '(' :: rest).dropWhile isIdentChar = ws ++ '(' :: rest := by
      cases ws with
      | nil =>
        simp only [List.nil_append]
        exact dropWhile_cons_false _ _ (by decide)
      | cons w ws' =>
        rw [List.cons_append]
        exact dropWhile_cons_false _ _
          (ws_not_identChar w (hws w (List.mem_cons_self _ _)))
    have h3 : (ws ++ '(' :: rest).dropWhile isJsWs = '(' :: rest := by
      rw [dropWhile_append_all _ _ hws]
      exact dropWhile_cons_false _ _ (by decide)
    rw [h1, h2, h3]
    simp [headIs]

/-- Claim C2 counterexample: on the line `foo (x)` the classifier assigns
Function although the identifier is not immediately followed by `(` — the
regex allows whitespace before the parenthesis. -/
theorem claim_C2_counterexample :
    matchesFunctionPattern (trimStr (("foo (x)").data)) = true ∧
    functionClaimPattern (trimStr (("foo (x)").data)) = false := by decide

/-- Claim C5: each per-category list of the report is the list of the first
N matching lines in file order — at most 10 functions, 15 variables, 10
plots, 10 inputs and 5 alerts. -/
theorem claim_C5 (content : Str) :
    (analyzeIndicatorCode content).functions = (allFunctions content).take 10 ∧
    (analyzeIndicatorCode content).functions.length ≤ 10 ∧
    (analyzeIndicatorCode content).vars = (allVariables content).take 15 ∧
    (analyzeIndicatorCode content).vars.length ≤ 15 ∧
    (analyzeIndicatorCode content).plots = (allPlots content).take 10 ∧
    (analyzeIndicatorCode content).plots.length ≤ 10 ∧
    (analyzeIndicatorCode content).inputs = (allInputs content).take 10 ∧
    (analyzeIndicatorCode content).inputs.length ≤ 10 ∧
    (analyzeIndicatorCode content).alerts = (allAlerts content).take 5 ∧
    (analyzeIndicatorCode content).alerts.length ≤ 5 := by
  have hfn := foldl_classify_functions (splitLines content) ⟨[], [], [], [], []⟩
  have hvr := foldl_classify_vars (splitLines content) ⟨[], [], [], [], []⟩
  have hpl := foldl_classify_plots (splitLines content) ⟨[], [], [], [], []⟩
  have hin := foldl_classify_inputs (splitLines content) ⟨[], [], [], [], []⟩
  have hal := foldl_classify_alerts (splitLines content) ⟨[], [], [], [], []⟩
  simp only [analyzeIndicatorCode]
  rw [hfn, hvr, hpl, hin, hal]
  simp only [List.nil_append]
  refine ⟨rfl, ?_, rfl, ?_, rfl, ?_, rfl, ?_, rfl, ?_⟩ <;>
    simp [List.length_take, allFunctions, allVariables, allPlots, allInputs,
      allAlerts]

/-- Claim C7: the `lineCount` field equals the number of segments of the
literal newline split (newline count plus one, with a trailing empty segment
when the content ends in a newline), and the scenario input has 4 lines. -/
theorem claim_C7 :
    (∀ content : Str,
      (analyzeIndicatorCode content).lineCount = (splitLines content).length) ∧
    (∀ content : Str, (splitLines content).length = content.count '\n' + 1) ∧
    (∀ content : Str, splitLines (content ++ ['\n']) = splitLines content ++ [[]]) ∧
    (analyzeIndicatorCode (("foo(x) \x7b\n  y = 1\n\x7d\n").data)).lineCount = 4 := by
  refine ⟨fun content => ?_, splitLines_length, splitLines_append_newline, by decide⟩
  simp [analyzeIndicatorCode]

/-- Claim C9: `analyzeIndicatorCode` is total — every string yields a report
with at least one line — and the empty string yields the report with empty
category lists, Low tier and one (empty) line. -/
theorem claim_C9 :
    (∀ content : Str, 1 ≤ (analyzeIndicatorCode content).lineCount) ∧
    analyzeIndicatorCode [] = ⟨[], [], [], [], [], Complexity.Low, 1⟩ := by
  constructor
  · intro content
    have h : 0 < (splitLines content).length :=
      List.length_pos.mpr (splitLines_ne_nil content)
    simp only [analyzeIndicatorCode]
    omega
  · decide

/-- Claim C3 (amended): in the brace-balance scan, each line containing at
least one opening brace increments the running count by exactly one, and each
line containing at least one closing brace decrements it by exactly one,
regardless of how many brace characters the line holds; in particular a line
containing both braces leaves the count net unchanged. -/
theorem claim_C3_amended (line : Str) (braceCount : Int) (inFunction : Bool) :
    ((braceLineUpdate line braceCount inFunction).1.1 =
      braceCount + (if containsSub ['\x7b'] line = true then 1 else 0) -
        (if containsSub ['\x7d'] line = true then 1 else 0)) ∧
    (containsSub ['\x7b'] line = true → containsSub ['\x7d'] line = true →
      (braceLineUpdate line braceCount inFunction).1.1 = braceCount) := by
  cases h1 : containsSub ['\x7b'] line <;> cases h2 : containsSub ['\x7d'] line <;>
    simp [braceLineUpdate, h1, h2]

/-- Claim C3 counterexample: the scan counts per line, not per occurrence —
on the line `\x7b\x7b` the count rises by one, not by the occurrence count
two, so the extractor closes the span of `foo() \x7b\x7b` at the first
closing line instead of the second. -/
theorem claim_C3_counterexample :
    ((extractFunctions (("foo() \x7b\x7b\n\x7d\n\x7d").data)).map
      (fun f => (f.startLine, f.endLine)) = [(1, 2)]) ∧
    ¬ ((braceLineUpdate ['\x7b', '\x7b'] 0 false).1.1 =
        0 + ((((['\x7b', '\x7b'] : Str).count '\x7b' : Int)) -
          (((['\x7b', '\x7b'] : Str).count '\x7d' : Int)))) := by decide

/-- Claim C3 witness: applying the amended theorem at a line holding one
opening and one closing brace shows the count unchanged. -/
theorem claim_C3_witness : (braceLineUpdate ['\x7b', '\x7d'] 7 false).1.1 = 7 :=
  (claim_C3_amended ['\x7b', '\x7d'] 7 false).2 (by decide) (by decide)

/-- Claim C4: every span of `extractFunctions` has startLine ≤ endLine,
endLine ≤ startLine + 49 and endLine within the file; a span can end after
its start only at a line containing a closing brace (so an exhausted
lookahead window leaves endLine = startLine), and on a file with no brace
characters every span degenerates to endLine = startLine. -/
theorem claim_C4 (content : Str) (f : FunctionSpan)
    (hf : f ∈ extractFunctions content) :
    f.startLine ≤ f.endLine ∧ f.endLine ≤ f.startLine + 49 ∧
    f.endLine ≤ (splitLines content).length ∧
    (f.startLine < f.endLine →
      containsSub ['\x7d'] ((splitLines content).getD (f.endLine - 1) []) = true) ∧
    ((containsSub ['\x7b'] content = false ∧ containsSub ['\x7d'] content = false) →
      f.endLine = f.startLine) := by
  simp only [extractFunctions] at hf
  rcases (foldl_append_mem (fun i => spanAt (splitLines content) i)
      (List.range (splitLines content).length) [] f).mp hf with h0 | ⟨i, hir, hsp⟩
  · simp at h0
  rw [List.mem_range] at hir
  simp only [spanAt] at hsp
  by_cases hm :
      matchesFunctionPattern (trimStr ((splitLines content).getD i [])) = true
  · rw [if_pos hm] at hsp
    by_cases hc :
        (joinLines (((splitLines content).drop i).take
          (findFunctionEnd (splitLines content) i + 1 - i))).length > 0
    · rw [if_pos hc] at hsp
      rcases List.mem_singleton.mp hsp with rfl
      have hfe : findFunctionEnd (splitLines content) i =
          scanLoop (splitLines content)
            (min (i + 50) (splitLines content).length)
            (min (i + 50) (splitLines content).length - i) i 0 false i := rfl
      have hdisj : findFunctionEnd (splitLines content) i = i ∨
          (i ≤ findFunctionEnd (splitLines content) i ∧
           findFunctionEnd (splitLines content) i <
             min (i + 50) (splitLines content).length ∧
           containsSub ['\x7d'] ((splitLines content).getD
             (findFunctionEnd (splitLines content) i) []) = true) := by
        rw [hfe]
        exact scanLoop_cases _ _ _ _ _ _ _
      have hnb : (containsSub ['\x7b'] content = false ∧
          containsSub ['\x7d'] content = false) →
          findFunctionEnd (splitLines content) i = i := by
        rintro ⟨hb1, hb2⟩
        have hall : ∀ l ∈ splitLines content, containsSub ['\x7b'] l = false ∧
            containsSub ['\x7d'] l = false := by
          intro l hl
          constructor
          · by_contra hx
            rw [Bool.not_eq_false] at hx
            have hmemc : '\x7b' ∈ content :=
              splitLines_chars content l hl '\x7b' ((containsSub_singleton _ _).mp hx)
            have hx2 : containsSub ['\x7b'] content = true :=
              (containsSub_singleton _ _).mpr hmemc
            rw [hb1] at hx2
            exact Bool.false_ne_true hx2
          · by_contra hx
            rw [Bool.not_eq_false] at hx
            have hmemc : '\x7d' ∈ content :=
              splitLines_chars content l hl '\x7d' ((containsSub_singleton _ _).mp hx)
            have hx2 : containsSub ['\x7d'] content = true :=
              (containsSub_singleton _ _).mpr hmemc
            rw [hb2] at hx2
            exact Bool.false_ne_true hx2
        rw [hfe]
        exact scanLoop_no_braces _ _ hall _ _ _ _ _
      have hbounds : i ≤ findFunctionEnd (splitLines content) i ∧
          findFunctionEnd (splitLines content) i ≤ i + 49 ∧
          findFunctionEnd (splitLines content) i < (splitLines content).length := by
        rcases hdisj with h | ⟨h1, h2, h3⟩
        · rw [h]
          exact ⟨le_refl _, by omega, hir⟩
        · exact ⟨h1, by omega, by omega⟩
      refine ⟨?_, ?_, ?_, ?_, ?_⟩
      · show i + 1 ≤ findFunctionEnd (splitLines content) i + 1
        omega
      · show findFunctionEnd (splitLines content) i + 1 ≤ i + 1 + 49
        omega
      · show findFunctionEnd (splitLines content) i + 1 ≤ (splitLines content).length
        omega
      · show i + 1 < findFunctionEnd (splitLines content) i + 1 →
          containsSub ['\x7d'] ((splitLines content).getD
            (findFunctionEnd (splitLines content) i + 1 - 1) []) = true
        intro hlt
        have heq : findFunctionEnd (splitLines content) i + 1 - 1 =
            findFunctionEnd (splitLines content) i := by omega
        rw [heq]
        rcases hdisj with h | ⟨h1, h2, h3⟩
        · rw [h] at hlt
          exact absurd hlt (by omega)
        · exact h3
      · show (containsSub ['\x7b'] content = false ∧
            containsSub ['\x7d'] content = false) →
          findFunctionEnd (splitLines content) i + 1 = i + 1
        intro hb
        rw [hnb hb]
    · rw [if_neg hc] at hsp
      simp at hsp
  · rw [if_neg hm] at hsp
    simp at hsp

/-- Claim C4 witness: the single-line file `foo(x)` yields the degenerate
span from line 1 to line 1, which satisfies all the invariants. -/
theorem claim_C4_witness :
    (⟨("foo").data, 1, 1, ("foo(x)").data⟩ : FunctionSpan).startLine ≤
      (⟨("foo").data, 1, 1, ("foo(x)").data⟩ : FunctionSpan).endLine :=
  (claim_C4 (("foo(x)").data) ⟨("foo").data, 1, 1, ("foo(x)").data⟩ (by decide)).1

/-- Claim C6 (amended): Corpus Search returns at most 3 matched lines per
file — the first 3 in file order — and every file appearing in the result is
a readable listed file whose normalized content contains the normalized
term; a file may however appear with zero matched lines (when the term
occurrence depends on line-edge whitespace or spans a newline). -/
theorem claim_C6_amended (files : List (Str × Option Str)) (searchTerm : Str)
    (ci : Bool) (m : SearchMatch) (hm : m ∈ searchIndicators files searchTerm ci) :
    m.matchList.length ≤ 3 ∧
    ∃ content, (m.file, some content) ∈ files ∧
      containsSub (if ci then lowerStr searchTerm else searchTerm)
        (if ci then lowerStr content else content) = true ∧
      m.matchList =
        (fileLineMatches content
          (if ci then lowerStr searchTerm else searchTerm) ci).take 3 := by
  rcases search_mem searchTerm ci files [] m hm with h | ⟨content, hc, hinf, hml⟩
  · simp at h
  · refine ⟨?_, content, hc, hinf, hml⟩
    rw [hml, List.length_take]
    exact Nat.min_le_left _ _

/-- Claim C6 counterexample: searching for ` x` (leading space) in the file
`  x` passes the whole-content containment check, yet no trimmed line
contains the term, so the file is returned with zero matched lines — the
claim that a file with zero line matches is omitted fails. -/
theorem claim_C6_counterexample :
    searchIndicators [((("f").data), some (("  x").data))] ((" x").data) false =
      [⟨("f").data, []⟩] ∧
    (⟨("f").data, ([] : List SearchMatchLine)⟩ : SearchMatch).matchList.length = 0 := by
  decide

/-- Claim C6 witness: the amended theorem applied to the scenario of a
case-insensitive search for `RSI` in a file containing `rsi_value = close`. -/
theorem claim_C6_witness :
    (⟨("a").data, [⟨("rsi_value = close").data, 1⟩]⟩ : SearchMatch).matchList.length ≤ 3 :=
  (claim_C6_amended [((("a").data), some (("rsi_value = close").data))]
    (("RSI").data) true ⟨("a").data, [⟨("rsi_value = close").data, 1⟩]⟩ (by decide)).1

/-- Claim C8: a read failure in `analyze_indicator` is caught at the
dispatch boundary and surfaces as an error-flagged response whose text
contains the filename and the underlying reason; an unknown tool name is
likewise converted to an error-flagged response; and every handler error is
returned as an `Error: `-prefixed error-flagged payload instead of being
propagated. -/
theorem claim_C8 (dir : Except Str (List Str)) (fs : Str → Except Str Str)
    (filename reason : Str) (h : fs filename = Except.error reason) :
    ((handleCallTool dir fs (ToolRequest.analyzeIndicator filename)).isError = true ∧
     filename <:+:
       (handleCallTool dir fs (ToolRequest.analyzeIndicator filename)).text ∧
     reason <:+:
       (handleCallTool dir fs (ToolRequest.analyzeIndicator filename)).text) ∧
    (∀ n, (handleCallTool dir fs (ToolRequest.unknown n)).isError = true) ∧
    (∀ req msg, dispatchTool dir fs req = Except.error msg →
      handleCallTool dir fs req = ⟨("Error: ").data ++ msg, true⟩) := by
  have hresp : handleCallTool dir fs (ToolRequest.analyzeIndicator filename) =
      ⟨("Error: ").data ++ ((("Failed to read indicator file \"").data ++ filename ++
        ("\": ").data) ++ reason), true⟩ := by
    simp [handleCallTool, dispatchTool, readIndicatorFileE, h, Except.map]
  refine ⟨⟨?_, ?_, ?_⟩, ?_, ?_⟩
  · rw [hresp]
  · rw [hresp]
    refine ⟨("Error: ").data ++ ("Failed to read indicator file \"").data,
      ("\": ").data ++ reason, ?_⟩
    simp
  · rw [hresp]
    refine ⟨("Error: ").data ++ (("Failed to read indicator file \"").data ++
      filename ++ ("\": ").data), [], ?_⟩
    simp
  · intro n
    simp [handleCallTool, dispatchTool]
  · intro req msg hmsg
    simp [handleCallTool, hmsg]

/-- Claim C8 witness: a concrete file store in which `missing.pine` fails to
read with reason `ENOENT` yields an error-flagged analyze response. -/
theorem claim_C8_witness :
    (handleCallTool (Except.ok []) (fun _ => Except.error (("ENOENT").data))
      (ToolRequest.analyzeIndicator (("missing.pine").data))).isError = true :=
  (claim_C8 (Except.ok []) (fun _ => Except.error (("ENOENT").data))
    (("missing.pine").data) (("ENOENT").data) rfl).1.1

/-- Claim C10: a line of Corpus Search is reported as a match exactly when
its trimmed (and, case-insensitively, lowercased) form contains the
normalized term; the recorded text is the trimmed line; and a term whose
occurrence spans the edge whitespace can pass the whole-content check while
no line matches. -/
theorem claim_C10 :
    (∀ (content term : Str) (ci : Bool) (i : Nat),
      i < (splitLines content).length →
      ((SearchMatchLine.mk (trimStr ((splitLines content).getD i [])) (i + 1) ∈
          fileLineMatches content term ci) ↔
        containsSub term
          (if ci then lowerStr (trimStr ((splitLines content).getD i []))
           else trimStr ((splitLines content).getD i [])) = true)) ∧
    (∀ (content term : Str) (ci : Bool) (m : SearchMatchLine),
      m ∈ fileLineMatches content term ci →
      m.line = trimStr ((splitLines content).getD (m.number - 1) [])) ∧
    (containsSub (lowerStr (("a\nb").data)) (lowerStr (("a\nb").data)) = true ∧
      fileLineMatches (("a\nb").data) (lowerStr (("a\nb").data)) true = []) := by
  refine ⟨?_, ?_, by decide⟩
  · intro content term ci i hi
    constructor
    · intro hmem
      have hp := (List.mem_filter.mp hmem).2
      simpa using hp
    · intro hc
      apply List.mem_filter.mpr
      refine ⟨?_, by simpa using hc⟩
      apply (mem_numberLines (splitLines content) 0 _).mpr
      exact ⟨i, hi, rfl, by simp⟩
  · intro content term ci m hm
    have h1 := (List.mem_filter.mp hm).1
    obtain ⟨j, hj, hline, hnum⟩ := (mem_numberLines _ 0 m).mp h1
    rw [hline, hnum]
    have heq : 0 + j + 1 - 1 = j := by omega
    rw [heq]

/-- Claim C10 witness: the line-match characterization applied to the
one-line file `x` searched for `x`. -/
theorem claim_C10_witness :
    (SearchMatchLine.mk (trimStr ((splitLines (("x").data)).getD 0 [])) (0 + 1) ∈
        fileLineMatches (("x").data) (("x").data) false) ↔
      containsSub (("x").data)
        (if false then lowerStr (trimStr ((splitLines (("x").data)).getD 0 []))
         else trimStr ((splitLines (("x").data)).getD 0 [])) = true :=
  claim_C10.1 (("x").data) (("x").data) false 0 (by decide)
